import Mathlib

/-!
Shallow embedding of the conversation-store chat client (gemini-txtoutput).

State handlers come from the main App component; the external completion
call comes from the gemini module; the input widget comes from ChatInput.
React state is embedded as an explicit `AppState` record.  Two conventions
reflect React semantics faithfully:

* a handler reads state from the render snapshot (its `AppState` argument),
  while a functional state update (`setX(prev => ...)`) composes on the
  already-queued state; where a handler calls another handler of the same
  render, the callee therefore reads the stale snapshot (see
  `handleNewChatFrom`);
* the awaited external call never throws (catch-all in the gemini module),
  so its result is passed to `handleSend` as an oracle string `reply`.

JS truthiness of a `string | null` value (`if (!x)`) holds for `null` and
for the empty string; it is embedded on `Option String` by `falsyId`.
-/

namespace GeminiTxtOutput

/-- Role tag of a chat message: `"user" | "model"` in the source. -/
inductive Role where
  | user
  | model
deriving DecidableEq

/-- Chat message record `{ role, text }`. -/
structure Message where
  role : Role
  text : String
deriving DecidableEq

/-- Conversation record `{ id, name, messages, systemInstruction }`. -/
structure Conversation where
  id : String
  name : String
  messages : List Message
  systemInstruction : String
deriving DecidableEq

/-- Preset record `{ name, instruction }`. -/
structure SystemInstructionPreset where
  name : String
  instruction : String
deriving DecidableEq

/-- React state of the App component that the handlers touch:
`conversations`, `currentConversationId`, `isLoading`,
`systemInstructionPresets`, `selectedModel`.  The edit-widget state
(`editIndex`, `editText`, `editRole`) is passed to `appOnSend` as explicit
arguments instead. -/
structure AppState where
  conversations : List Conversation
  currentConversationId : Option String
  isLoading : Bool
  systemInstructionPresets : List SystemInstructionPreset
  selectedModel : String
deriving DecidableEq

/-- JS truthiness test `!x` on a `string | null` value: true for `null`
and for the empty string. -/
def falsyId : Option String → Bool
  | none => true
  | some s => s == ""

/-- Derived accessor `conversations.find(c => c.id === currentConversationId)`.
A `null` id matches no conversation. -/
def currentConversation (s : AppState) : Option Conversation :=
  match s.currentConversationId with
  | none => none
  | some cid => s.conversations.find? (fun c => c.id == cid)

/-- Derived accessor `currentConversation?.messages ?? []`. -/
def messages (s : AppState) : List Message :=
  match currentConversation s with
  | some c => c.messages
  | none => []

/-- Derived accessor `currentConversation?.systemInstruction ?? ""`. -/
def systemInstructionOf (s : AppState) : String :=
  match currentConversation s with
  | some c => c.systemInstruction
  | none => ""

/-- Source `updateConversation(id, update)` maps the conversation list and
merges the partial update into every conversation whose id matches.  Each
call site passes a single field; this is the `messages` specialization. -/
def updateConversationMessages (s : AppState) (id : String) (msgs : List Message) : AppState :=
  { s with conversations :=
      s.conversations.map (fun c => if c.id == id then { c with messages := msgs } else c) }

/-- Specialization of `updateConversation` for the `systemInstruction` field. -/
def updateConversationSystemInstruction (s : AppState) (id : String) (text : String) : AppState :=
  { s with conversations :=
      s.conversations.map (fun c => if c.id == id then { c with systemInstruction := text } else c) }

/-- First half of `handleSend`: the state after the optimistic commit of the
user message and `setIsLoading(true)`, before the awaited call returns. -/
def handleSendOptimistic (s : AppState) (userText : String)
    (baseMessages : Option (List Message)) : AppState :=
  match s.currentConversationId with
  | none => s
  | some cid =>
    if cid = "" then s
    else
      let history := baseMessages.getD (messages s)
      let newMessages := history ++ [⟨Role.user, userText⟩]
      { updateConversationMessages s cid newMessages with isLoading := true }

/-- Source `handleSend(userText, baseMessages?)`.  The guard is the JS
truthiness test on `currentConversationId`; `reply` is the string the
awaited external call resolves to (the call is total, see
`sendToGeminiWithContext`), so the success path always runs and the
`finally` clause clears the busy flag. -/
def handleSend (s : AppState) (userText : String)
    (baseMessages : Option (List Message)) (reply : String) : AppState :=
  match s.currentConversationId with
  | none => s
  | some cid =>
    if cid = "" then s
    else
      let history := baseMessages.getD (messages s)
      let newMessages := history ++ [⟨Role.user, userText⟩]
      let s1 := { updateConversationMessages s cid newMessages with isLoading := true }
      let s2 := updateConversationMessages s1 cid (newMessages ++ [⟨Role.model, reply⟩])
      { s2 with isLoading := false }

/-- Source `handleResend(index)`: no-op unless the message at `index`
exists and is user-authored; otherwise truncates to `messages.slice(0, index)`
and resends the original text. -/
def handleResend (s : AppState) (index : Nat) (reply : String) : AppState :=
  match (messages s)[index]? with
  | none => s
  | some targetMsg =>
    if targetMsg.role ≠ Role.user then s
    else handleSend s targetMsg.text (some ((messages s).take index)) reply

/-- Source `handleNewChat` as it executes inside a handler of the same
render: React reads (`conversations.length` in the name template) come from
the render snapshot, while the functional update
`setConversations(prev => [...prev, newConversation])` appends to the
already-queued list.  `snapshot` is the render state, `s` the queued
state; the two coincide when `handleNewChat` is invoked directly.
`newId` stands for the `uuidv4()` result. -/
def handleNewChatFrom (snapshot s : AppState) (newId : String) : AppState :=
  let newConversation : Conversation :=
    { id := newId
      name := "Conversation " ++ toString (snapshot.conversations.length + 1)
      messages := []
      systemInstruction := "" }
  { s with
      conversations := s.conversations ++ [newConversation]
      currentConversationId := some newId }

/-- Source `handleNewChat` invoked directly from the UI. -/
def handleNewChat (s : AppState) (newId : String) : AppState :=
  handleNewChatFrom s s newId

/-- Source `handleSwitchConversation(id)`: sets the pointer unconditionally. -/
def handleSwitchConversation (s : AppState) (id : String) : AppState :=
  { s with currentConversationId := some id }

/-- Source `handleDeleteConversation(id)`: filters the list; when the
deleted id was current, switches to the first remaining conversation or,
when none remain, calls `handleNewChat` (which reads the pre-delete render
snapshot, see `handleNewChatFrom`). -/
def handleDeleteConversation (s : AppState) (id : String) (newId : String) : AppState :=
  let s1 := { s with conversations := s.conversations.filter (fun c => !(c.id == id)) }
  if s.currentConversationId = some id then
    let remainingConversations := s.conversations.filter (fun c => !(c.id == id))
    match remainingConversations with
    | first :: _ => { s1 with currentConversationId := some first.id }
    | [] => handleNewChatFrom s s1 newId
  else s1

/-- Source `handleSystemInstructionChange(text)`: guarded by JS truthiness
of `currentConversationId`. -/
def handleSystemInstructionChange (s : AppState) (text : String) : AppState :=
  match s.currentConversationId with
  | none => s
  | some cid =>
    if cid = "" then s
    else updateConversationSystemInstruction s cid text

/-- Source `handleAddSystemInstructionPreset(name)`: requires a current
conversation; upserts by `findIndex` on the preset name, overwriting in
place when found and appending otherwise. -/
def handleAddSystemInstructionPreset (s : AppState) (name : String) : AppState :=
  match currentConversation s with
  | none => s
  | some c =>
    let newPreset : SystemInstructionPreset := ⟨name, c.systemInstruction⟩
    let prev := s.systemInstructionPresets
    match prev.findIdx? (fun p => p.name == name) with
    | some existingIndex =>
        { s with systemInstructionPresets := prev.set existingIndex newPreset }
    | none =>
        { s with systemInstructionPresets := prev ++ [newPreset] }

/-- Source `handleDeleteSystemInstructionPreset(name)`: removes every
preset with the name; when the deleted preset existed and its instruction
text equals the instruction of the current conversation (optional chaining
yields no match when there is none), clears the active instruction. -/
def handleDeleteSystemInstructionPreset (s : AppState) (name : String) : AppState :=
  let presetToDelete := s.systemInstructionPresets.find? (fun p => p.name == name)
  let s1 := { s with systemInstructionPresets :=
      s.systemInstructionPresets.filter (fun p => !(p.name == name)) }
  match presetToDelete with
  | some p =>
    if (currentConversation s).map (fun c => c.systemInstruction) = some p.instruction
    then handleSystemInstructionChange s1 ""
    else s1
  | none => s1

/-- Oracle for the behavior of the awaited remote call inside
`sendToGeminiWithContext` (everything inside the `try`, including client
construction): it resolves with an optional text, rejects with an `Error`
carrying a message, or rejects with a value that is not an `Error`. -/
inductive GeminiCall where
  | resolved (text : Option String)
  | rejectedError (message : String)
  | rejectedOther
deriving DecidableEq

/-- Source `sendToGeminiWithContext(messages, systemInstructionText, modelName)`.
`apiKey` is the stored credential (`none` when absent; the JS guard
`if (!apiKey)` also fires on the empty string); `call` is the oracle for
the remote call.  The message list, instruction and model name are
forwarded to the remote call and do not select a branch themselves.
Every path returns a string: the catch-all makes the boundary total. -/
def sendToGeminiWithContext (msgs : List Message) (systemInstructionText : String)
    (modelName : String) (apiKey : Option String) (call : GeminiCall) : String :=
  if falsyId apiKey then "⚠️ APIキーが未設定です。"
  else
    match call with
    | GeminiCall.resolved (some t) => t
    | GeminiCall.resolved none => "⚠️ レスポンスが空でした。"
    | GeminiCall.rejectedError m => "⚠️ エラー: " ++ m
    | GeminiCall.rejectedOther => "⚠️ 不明なエラーが発生しました。"

/-- State of the ChatInput widget: the text field plus a log of the
arguments passed to the `onSend` callback (the embedding of invoking it). -/
structure ChatInputState where
  input : String
  sent : List String
deriving DecidableEq

/-- Character class stripped by the JS built-in `String.prototype.trim`:
the ECMAScript WhiteSpace production (TAB U+0009, VT U+000B, FF U+000C,
SP U+0020, NBSP U+00A0, ZWNBSP U+FEFF, and the Unicode Zs category:
U+0020, U+00A0, U+1680, U+2000 to U+200A, U+202F, U+205F, U+3000)
together with the LineTerminator production (LF U+000A, CR U+000D,
LS U+2028, PS U+2029). -/
def jsWhitespace (c : Char) : Bool :=
  let n := c.toNat
  n = 0x9 || n = 0xA || n = 0xB || n = 0xC || n = 0xD
    || n = 0x20 || n = 0xA0 || n = 0x1680
    || (0x2000 ≤ n && n ≤ 0x200A)
    || n = 0x2028 || n = 0x2029 || n = 0x202F || n = 0x205F
    || n = 0x3000 || n = 0xFEFF

/-- JS built-in `String.prototype.trim`: strips leading and trailing
`jsWhitespace` characters, modeled over the character list. -/
def jsTrim (s : String) : String :=
  ⟨List.reverse (List.dropWhile jsWhitespace
      (List.reverse (List.dropWhile jsWhitespace s.data)))⟩

/-- Source `handleSubmit` of ChatInput: returns early when the trimmed
input is empty (JS falsiness of the empty string), otherwise calls
`onSend(input)` with the untrimmed text and resets the field. -/
def handleSubmit (st : ChatInputState) : ChatInputState :=
  if jsTrim st.input = "" then st
  else { input := "", sent := st.sent ++ [st.input] }

/-- JS assignment `updatedMessages[editIndex] = { ...updatedMessages[editIndex], text }`
at the index of a rendered message (always in bounds; an out-of-bounds JS
index would lengthen the array but cannot be produced by the UI). -/
def setMessageText (l : List Message) (i : Nat) (text : String) : List Message :=
  match l[i]? with
  | some old => l.set i { old with text := text }
  | none => l

/-- The `onSend` handler App passes to ChatInput: resend-with-truncation
when editing a user message, in-place text replacement when editing a
model message (guarded by truthiness of `currentConversationId`), plain
send otherwise.  `editIndex` and `editRole` are the edit-widget state at
submit time; `reply` is the oracle for the branches that reach
`handleSend`.  The trailing resets touch only widget state. -/
def appOnSend (s : AppState) (editIndex : Option Nat) (editRole : Option Role)
    (text : String) (reply : String) : AppState :=
  match editIndex, editRole with
  | some i, some Role.user => handleSend s text (some ((messages s).take i)) reply
  | some i, some Role.model =>
    (match s.currentConversationId with
     | none => s
     | some cid =>
       if cid = "" then s
       else updateConversationMessages s cid (setMessageText (messages s) i text))
  | _, _ => handleSend s text none reply

/-- Concrete fixture: an empty conversation with id `a`. -/
def convEmptyA : Conversation := ⟨"a", "Conversation 1", [], ""⟩

/-- Concrete fixture: a store holding exactly `convEmptyA`, which is current. -/
def sOne : AppState :=
  { conversations := [convEmptyA]
    currentConversationId := some "a"
    isLoading := false
    systemInstructionPresets := []
    selectedModel := "gemini-2.5-flash" }

/-- Concrete fixture: a conversation with one exchange and an instruction. -/
def convA : Conversation :=
  ⟨"a", "Conversation 1", [⟨Role.user, "hi"⟩, ⟨Role.model, "yo"⟩], "sys"⟩

/-- Concrete fixture: a second, empty conversation. -/
def convB : Conversation := ⟨"b", "Conversation 2", [], ""⟩

/-- Concrete fixture: a store holding `convA` (current) and two presets. -/
def sA : AppState :=
  { conversations := [convA]
    currentConversationId := some "a"
    isLoading := false
    systemInstructionPresets := [⟨"p1", "sys"⟩, ⟨"p2", "other"⟩]
    selectedModel := "gemini-2.5-flash" }

/-- Concrete fixture: a store holding `convA` (current) and `convB`. -/
def sTwo : AppState :=
  { conversations := [convA, convB]
    currentConversationId := some "a"
    isLoading := false
    systemInstructionPresets := []
    selectedModel := "gemini-2.5-flash" }

/-! ## Helper lemmas -/

theorem currentConversation_eq (s : AppState) (cid : String) (c : Conversation)
    (h1 : s.currentConversationId = some cid)
    (h2 : s.conversations.find? (fun x => x.id == cid) = some c) :
    currentConversation s = some c := by
  simp [currentConversation, h1, h2]

theorem messages_eq (s : AppState) (c : Conversation)
    (h : currentConversation s = some c) : messages s = c.messages := by
  simp [messages, h]

/-- Updating by id commutes with lookup by id: mapping an id-preserving
update over the list sends the first match to its updated form. -/
theorem find?_map_upd (l : List Conversation) (cid : String) (g : Conversation → Conversation)
    (hg : ∀ x, (g x).id = x.id) (c : Conversation)
    (h : l.find? (fun x => x.id == cid) = some c) :
    (l.map (fun x => if x.id == cid then g x else x)).find? (fun x => x.id == cid)
      = some (g c) := by
  induction l with
  | nil => simp at h
  | cons a t ih =>
    by_cases ha : (a.id == cid) = true
    · have hpos : (a :: t).find? (fun x => x.id == cid) = some a :=
        List.find?_cons_of_pos _ ha
      rw [hpos] at h
      injection h with h
      subst h
      simp only [List.map_cons, if_pos ha]
      exact List.find?_cons_of_pos _ (by rw [hg]; exact ha)
    · have hneg : (a :: t).find? (fun x => x.id == cid) = t.find? (fun x => x.id == cid) :=
        List.find?_cons_of_neg _ ha
      rw [hneg] at h
      simp only [List.map_cons, if_neg ha]
      have hneg2 : (a :: t.map (fun x => if (x.id == cid) = true then g x else x)).find? (fun x => x.id == cid)
          = (t.map (fun x => if (x.id == cid) = true then g x else x)).find? (fun x => x.id == cid) :=
        List.find?_cons_of_neg _ ha
      rw [hneg2]
      exact ih h

theorem currentConversation_updateMessages (s : AppState) (cid : String)
    (v : List Message) (c : Conversation)
    (h1 : s.currentConversationId = some cid)
    (h2 : s.conversations.find? (fun x => x.id == cid) = some c) :
    currentConversation (updateConversationMessages s cid v)
      = some { c with messages := v } := by
  simp only [currentConversation, updateConversationMessages, h1]
  exact find?_map_upd s.conversations cid (fun x => { x with messages := v })
    (fun x => rfl) c h2

/-- Postcondition of `handleSend` under a resolving, truthy current id:
the current conversation ends with the optimistic user message and exactly
one appended model message, and the busy flag is cleared. -/
theorem handleSend_spec (s : AppState) (u : String) (b : Option (List Message)) (r : String)
    (cid : String) (c : Conversation)
    (h1 : s.currentConversationId = some cid) (hne : cid ≠ "")
    (h2 : s.conversations.find? (fun x => x.id == cid) = some c) :
    currentConversation (handleSend s u b r)
      = some { c with messages := (b.getD c.messages ++ [⟨Role.user, u⟩]) ++ [⟨Role.model, r⟩] }
    ∧ (handleSend s u b r).isLoading = false := by
  have hmsg : messages s = c.messages :=
    messages_eq s c (currentConversation_eq s cid c h1 h2)
  constructor
  · simp only [handleSend, h1, if_neg hne, hmsg, currentConversation,
      updateConversationMessages]
    exact find?_map_upd _ cid
      (fun x => { x with messages := (b.getD c.messages ++ [⟨Role.user, u⟩]) ++ [⟨Role.model, r⟩] })
      (fun x => rfl)
      { c with messages := b.getD c.messages ++ [⟨Role.user, u⟩] }
      (find?_map_upd _ cid
        (fun x => { x with messages := b.getD c.messages ++ [⟨Role.user, u⟩] })
        (fun x => rfl) c h2)
  · simp [handleSend, h1, if_neg hne]

/-- Postcondition of the optimistic half of `handleSend`. -/
theorem handleSendOptimistic_spec (s : AppState) (u : String) (b : Option (List Message))
    (cid : String) (c : Conversation)
    (h1 : s.currentConversationId = some cid) (hne : cid ≠ "")
    (h2 : s.conversations.find? (fun x => x.id == cid) = some c) :
    currentConversation (handleSendOptimistic s u b)
      = some { c with messages := b.getD c.messages ++ [⟨Role.user, u⟩] }
    ∧ (handleSendOptimistic s u b).isLoading = true := by
  have hmsg : messages s = c.messages :=
    messages_eq s c (currentConversation_eq s cid c h1 h2)
  constructor
  · simp only [handleSendOptimistic, h1, if_neg hne, hmsg, currentConversation,
      updateConversationMessages]
    exact find?_map_upd _ cid
      (fun x => { x with messages := b.getD c.messages ++ [⟨Role.user, u⟩] })
      (fun x => rfl) c h2
  · simp [handleSendOptimistic, h1, if_neg hne]

theorem findIdx?_found {α} (p : α → Bool) (l : List α) (i : Nat)
    (h : l.findIdx? p = some i) : ∃ a, l[i]? = some a ∧ p a = true := by
  induction l generalizing i with
  | nil => simp [List.findIdx?] at h
  | cons a t ih =>
    rw [List.findIdx?_cons] at h
    by_cases ha : p a
    · simp [ha] at h
      subst h
      exact ⟨a, by simp, ha⟩
    · simp [ha] at h
      obtain ⟨j, hj, rfl⟩ := h
      obtain ⟨b, hb, hpb⟩ := ih _ hj
      exact ⟨b, by simpa using hb, hpb⟩

theorem findIdx?_none {α} (p : α → Bool) (l : List α) (h : l.findIdx? p = none) :
    ∀ a ∈ l, p a = false := by
  induction l with
  | nil => simp
  | cons a t ih =>
    rw [List.findIdx?_cons] at h
    by_cases ha : p a
    · simp [ha] at h
    · simp [ha] at h ⊢
      intro x hx
      exact ih (by simpa using h) x hx

theorem set_eq_self_of_getElem? {α} (l : List α) (i : Nat) (a : α)
    (h : l[i]? = some a) : l.set i a = l := by
  ext j
  rcases eq_or_ne j i with rfl | hne
  · simp [List.getElem?_set_self', (List.getElem?_eq_some.mp h).1, h]
  · simp [List.getElem?_set_ne (fun hh => hne hh.symm)]

/-! ## Claim theorems -/

/-- C5 counterexample: switching to an id that no conversation in the
store carries is not a no-op; the current pointer changes to the unknown
id. -/
theorem switch_unknown_id_changes_pointer :
    (handleSwitchConversation sOne "b").currentConversationId = some "b"
    ∧ sOne.conversations.find? (fun c => c.id == "b") = none
    ∧ (handleSwitchConversation sOne "b").currentConversationId
        ≠ sOne.currentConversationId :=
  ⟨rfl, rfl, by decide⟩

/-- C5 (amended): switchTo sets the current-conversation pointer to the
given id unconditionally and leaves the conversation list unchanged,
whether or not the id names a conversation in the store. -/
theorem switchTo_sets_pointer_unconditionally (s : AppState) (id : String) :
    (handleSwitchConversation s id).currentConversationId = some id
    ∧ (handleSwitchConversation s id).conversations = s.conversations :=
  ⟨rfl, rfl⟩

/-- C9 counterexample: when the remote call rejects with a value that is
not an Error, the boundary returns a fourth fixed sentinel.  It differs
from the missing-credential and empty-response sentinels, and it carries
no captured error message: every string of the captured-error form starts
with the eight-character marker, so its fourth character is the fourth
marker character, while the fourth character of this sentinel differs. -/
theorem gemini_fourth_sentinel :
    sendToGeminiWithContext [] "" "gemini-2.5-flash" (some "k") GeminiCall.rejectedOther
      = "⚠️ 不明なエラーが発生しました。"
    ∧ ("⚠️ 不明なエラーが発生しました。" : String) ≠ "⚠️ APIキーが未設定です。"
    ∧ ("⚠️ 不明なエラーが発生しました。" : String) ≠ "⚠️ レスポンスが空でした。"
    ∧ "⚠️ 不明なエラーが発生しました。".data.take 4 = ['⚠', Char.ofNat 65039, ' ', '不']
    ∧ "⚠️ エラー: ".data.take 4 = ['⚠', Char.ofNat 65039, ' ', 'エ']
    ∧ ('不' : Char) ≠ 'エ' :=
  ⟨rfl, by decide, by decide, by decide, by decide, by decide⟩

/-- C9 (amended): the completion boundary is total and classifies every
input: the result is the reply text on success, or the fixed
missing-credential sentinel, the fixed empty-response sentinel, a string
carrying the captured error message when the rejection is an Error, or
the fixed unknown-error sentinel when the rejected value is not an
Error. -/
theorem gemini_result_classification (msgs : List Message) (sysText mdl : String)
    (k : Option String) (call : GeminiCall) :
    (falsyId k = true
      ∧ sendToGeminiWithContext msgs sysText mdl k call = "⚠️ APIキーが未設定です。")
    ∨ (falsyId k = false ∧ ∃ t, call = GeminiCall.resolved (some t)
      ∧ sendToGeminiWithContext msgs sysText mdl k call = t)
    ∨ (falsyId k = false ∧ call = GeminiCall.resolved none
      ∧ sendToGeminiWithContext msgs sysText mdl k call = "⚠️ レスポンスが空でした。")
    ∨ (falsyId k = false ∧ ∃ m, call = GeminiCall.rejectedError m
      ∧ sendToGeminiWithContext msgs sysText mdl k call = "⚠️ エラー: " ++ m)
    ∨ (falsyId k = false ∧ call = GeminiCall.rejectedOther
      ∧ sendToGeminiWithContext msgs sysText mdl k call = "⚠️ 不明なエラーが発生しました。") := by
  by_cases hk : falsyId k = true
  · exact Or.inl ⟨hk, by simp [sendToGeminiWithContext, hk]⟩
  · have hk' : falsyId k = false := by simpa using hk
    cases call with
    | resolved t =>
      cases t with
      | some t =>
        exact Or.inr (Or.inl ⟨hk', t, rfl, by simp [sendToGeminiWithContext, hk']⟩)
      | none =>
        exact Or.inr (Or.inr (Or.inl ⟨hk', rfl, by simp [sendToGeminiWithContext, hk']⟩))
    | rejectedError m =>
      exact Or.inr (Or.inr (Or.inr (Or.inl
        ⟨hk', m, rfl, by simp [sendToGeminiWithContext, hk']⟩)))
    | rejectedOther =>
      exact Or.inr (Or.inr (Or.inr (Or.inr
        ⟨hk', rfl, by simp [sendToGeminiWithContext, hk']⟩)))

/-- C10: submitting an input whose trimmed form is empty is a no-op for
the input widget (onSend is never invoked and the field keeps its text),
while an input with non-empty trim invokes onSend with the original
untrimmed text and resets the field to empty. -/
theorem chat_input_submit_spec (st : ChatInputState) :
    (jsTrim st.input = "" → handleSubmit st = st)
    ∧ (jsTrim st.input ≠ "" →
        handleSubmit st = { input := "", sent := st.sent ++ [st.input] }) := by
  constructor
  · intro h
    simp [handleSubmit, h]
  · intro h
    simp [handleSubmit, h]

/-- C10 witness: a whitespace-only submit leaves the widget unchanged,
also for a vertical tab or a no-break space, which JS trim strips; a
submit with content logs the untrimmed text and clears the field. -/
theorem chat_input_submit_spec_witness :
    handleSubmit ⟨"  ", []⟩ = ⟨"  ", []⟩
    ∧ handleSubmit ⟨"\u000B\u000C", []⟩ = ⟨"\u000B\u000C", []⟩
    ∧ handleSubmit ⟨"  ", []⟩ = ⟨"  ", []⟩
    ∧ handleSubmit ⟨" hi ", ["a"]⟩ = ⟨"", ["a", " hi "]⟩ := by
  refine ⟨(chat_input_submit_spec ⟨"  ", []⟩).1 (by decide),
    (chat_input_submit_spec ⟨"\u000B\u000C", []⟩).1 (by decide),
    (chat_input_submit_spec ⟨"  ", []⟩).1 (by decide), ?_⟩
  exact (chat_input_submit_spec ⟨" hi ", ["a"]⟩).2 (by decide)

/-- C1: resend on a user-authored message at index i truncates the
history to the first i messages and re-adds the exchange, leaving the
first i original messages followed by a user message with the original
text and then the model reply; resend on an absent or non-user message
leaves the state unchanged. -/
theorem resend_user_redoes_exchange (s : AppState) (i : Nat) (r : String) :
    (∀ cid c m, s.currentConversationId = some cid → cid ≠ "" →
      s.conversations.find? (fun x => x.id == cid) = some c →
      c.messages[i]? = some m → m.role = Role.user →
      currentConversation (handleResend s i r)
        = some { c with messages :=
            c.messages.take i ++ [⟨Role.user, m.text⟩, ⟨Role.model, r⟩] })
    ∧ (((messages s)[i]? = none
        ∨ ∃ m, (messages s)[i]? = some m ∧ m.role ≠ Role.user) →
      handleResend s i r = s) := by
  constructor
  · intro cid c m h1 hne h2 hmi hrole
    have hmsg : messages s = c.messages :=
      messages_eq s c (currentConversation_eq s cid c h1 h2)
    have hsend := handleSend_spec s m.text (some (c.messages.take i)) r cid c h1 hne h2
    simp only [handleResend, hmsg, hmi]
    rw [if_neg (by simp [hrole])]
    rw [hsend.1]
    simp [List.append_assoc]
  · intro h
    rcases h with hnone | ⟨m, hm, hrole⟩
    · simp [handleResend, hnone]
    · simp [handleResend, hm, hrole]

/-- C1 witness: in the fixture store, resending the user message at index
0 discards the old reply and leaves the original user text followed by
the new reply. -/
theorem resend_user_redoes_exchange_witness :
    currentConversation (handleResend sA 0 "r")
      = some ⟨"a", "Conversation 1", [⟨Role.user, "hi"⟩, ⟨Role.model, "r"⟩], "sys"⟩ := by
  have h := (resend_user_redoes_exchange sA 0 "r").1 "a" convA
    ⟨Role.user, "hi"⟩ rfl (by decide) rfl rfl rfl
  exact h

/-- C2: deleting the conversation the current pointer names keeps the
pointer resolving inside the store: the first remaining conversation
becomes current, or, when none remain, exactly one freshly created
conversation becomes current. -/
theorem delete_current_keeps_resolution (s : AppState) (id newId : String)
    (h : s.currentConversationId = some id) :
    (∀ first rest, s.conversations.filter (fun c => !(c.id == id)) = first :: rest →
        (handleDeleteConversation s id newId).conversations = first :: rest
        ∧ (handleDeleteConversation s id newId).currentConversationId = some first.id
        ∧ currentConversation (handleDeleteConversation s id newId) = some first)
    ∧ (s.conversations.filter (fun c => !(c.id == id)) = [] →
        ∃ c, (handleDeleteConversation s id newId).conversations = [c]
          ∧ c.id = newId
          ∧ (handleDeleteConversation s id newId).currentConversationId = some newId
          ∧ currentConversation (handleDeleteConversation s id newId) = some c)
    ∧ (∃ c ∈ (handleDeleteConversation s id newId).conversations,
        (handleDeleteConversation s id newId).currentConversationId = some c.id) := by
  refine ⟨?_, ?_, ?_⟩
  · intro first rest hf
    refine ⟨?_, ?_, ?_⟩
    · simp [handleDeleteConversation, if_pos h, hf]
    · simp [handleDeleteConversation, if_pos h, hf]
    · simp only [handleDeleteConversation, if_pos h, hf, currentConversation]
      exact List.find?_cons_of_pos _ (by simp)
  · intro hf
    refine ⟨⟨newId, "Conversation " ++ toString (s.conversations.length + 1), [], ""⟩,
      ?_, rfl, ?_, ?_⟩
    · simp [handleDeleteConversation, if_pos h, hf, handleNewChatFrom]
    · simp [handleDeleteConversation, if_pos h, hf, handleNewChatFrom]
    · simp only [handleDeleteConversation, if_pos h, hf, handleNewChatFrom,
        currentConversation]
      exact List.find?_cons_of_pos _ (by simp)
  · cases hf : s.conversations.filter (fun c => !(c.id == id)) with
    | cons first rest =>
      refine ⟨first, ?_, ?_⟩
      · simp [handleDeleteConversation, if_pos h, hf]
      · simp [handleDeleteConversation, if_pos h, hf]
    | nil =>
      refine ⟨⟨newId, "Conversation " ++ toString (s.conversations.length + 1), [], ""⟩,
        ?_, ?_⟩
      · simp [handleDeleteConversation, if_pos h, hf, handleNewChatFrom]
      · simp [handleDeleteConversation, if_pos h, hf, handleNewChatFrom]

/-- C2 witness: deleting the current conversation of the two-conversation
fixture makes the remaining conversation current; deleting the sole
conversation of the one-conversation fixture creates a fresh conversation
that becomes current. -/
theorem delete_current_keeps_resolution_witness :
    ((handleDeleteConversation sTwo "a" "z").currentConversationId = some "b"
      ∧ (handleDeleteConversation sTwo "a" "z").conversations = [convB])
    ∧ ((handleDeleteConversation sOne "a" "z").currentConversationId = some "z"
      ∧ (handleDeleteConversation sOne "a" "z").conversations.length = 1) := by
  constructor
  · have h := (delete_current_keeps_resolution sTwo "a" "z" rfl).1 convB [] rfl
    exact ⟨h.2.1, h.1⟩
  · obtain ⟨c, hc1, hc2, hc3, hc4⟩ :=
      (delete_current_keeps_resolution sOne "a" "z" rfl).2.1 rfl
    refine ⟨hc3, ?_⟩
    rw [hc1]
    rfl

/-- C3 counterexample: deleting the sole conversation triggers creation;
the store at that moment holds zero conversations, so the claim demands
the name Conversation 1, yet the created conversation is named
Conversation 2, because the handler reads the conversation count from
the pre-delete render snapshot. -/
theorem delete_last_creates_misnamed_conversation :
    sOne.conversations.filter (fun c => !(c.id == "a")) = []
    ∧ (handleDeleteConversation sOne "a" "b").conversations
        = [⟨"b", "Conversation 2", [], ""⟩]
    ∧ ("Conversation 2" : String) ≠ "Conversation 1" :=
  ⟨rfl, rfl, by decide⟩

/-- C3 (amended): a directly invoked create yields a conversation with
the generated id (fresh by hypothesis, the uuid contract), the name
Conversation N with N the store count plus one, empty messages and empty
instruction, and it becomes current and resolves; on the path where
deleting the last conversation triggers creation, the new conversation
has the same shape and becomes current, except that its name uses the
store count of the pre-delete snapshot plus one. -/
theorem create_fresh_becomes_current (s : AppState) (newId : String) :
    (newId ∉ s.conversations.map (fun c => c.id) →
      (handleNewChat s newId).conversations
        = s.conversations
          ++ [⟨newId, "Conversation " ++ toString (s.conversations.length + 1), [], ""⟩]
      ∧ (handleNewChat s newId).currentConversationId = some newId
      ∧ currentConversation (handleNewChat s newId)
          = some ⟨newId, "Conversation " ++ toString (s.conversations.length + 1), [], ""⟩)
    ∧ (∀ id, s.currentConversationId = some id →
        s.conversations.filter (fun c => !(c.id == id)) = [] →
        (handleDeleteConversation s id newId).conversations
          = [⟨newId, "Conversation " ++ toString (s.conversations.length + 1), [], ""⟩]
        ∧ (handleDeleteConversation s id newId).currentConversationId = some newId) := by
  constructor
  · intro hfresh
    refine ⟨rfl, rfl, ?_⟩
    simp only [handleNewChat, handleNewChatFrom, currentConversation]
    rw [List.find?_append]
    have hnone : s.conversations.find? (fun x => x.id == newId) = none := by
      rw [List.find?_eq_none]
      intro x hx
      simp only [beq_iff_eq]
      intro hxid
      exact hfresh (List.mem_map.mpr ⟨x, hx, hxid⟩)
    rw [hnone]
    simp only [Option.none_or]
    exact List.find?_cons_of_pos _ (by simp)
  · intro id hid hf
    constructor
    · simp [handleDeleteConversation, if_pos hid, hf, handleNewChatFrom]
    · simp [handleDeleteConversation, if_pos hid, hf, handleNewChatFrom]

/-- C3 witness: creating on top of the one-conversation fixture appends a
fresh current conversation named Conversation 2; deleting the sole
conversation creates the conversation exhibited in the counterexample. -/
theorem create_fresh_becomes_current_witness :
    (handleNewChat sOne "b").currentConversationId = some "b"
    ∧ (handleDeleteConversation sOne "a" "b").conversations
        = [⟨"b", "Conversation 2", [], ""⟩] := by
  constructor
  · exact ((create_fresh_becomes_current sOne "b").1 (by decide)).2.1
  · exact ((create_fresh_becomes_current sOne "b").2 "a" rfl rfl).1

/-- C4: send first commits the base history extended by the new user
message and sets the busy flag (the optimistic update), and on completion
the current conversation holds exactly one appended model message after
the optimistic list, with the busy flag cleared regardless of which reply
string the total external call produced. -/
theorem send_commits_then_appends (s : AppState) (u : String)
    (b : Option (List Message)) (r : String) :
    ∀ cid c, s.currentConversationId = some cid → cid ≠ "" →
      s.conversations.find? (fun x => x.id == cid) = some c →
      (currentConversation (handleSendOptimistic s u b)
          = some { c with messages := b.getD c.messages ++ [⟨Role.user, u⟩] }
        ∧ (handleSendOptimistic s u b).isLoading = true)
      ∧ (currentConversation (handleSend s u b r)
          = some { c with messages :=
              (b.getD c.messages ++ [⟨Role.user, u⟩]) ++ [⟨Role.model, r⟩] }
        ∧ (handleSend s u b r).isLoading = false) := by
  intro cid c h1 hne h2
  exact ⟨handleSendOptimistic_spec s u b cid c h1 hne h2,
    handleSend_spec s u b r cid c h1 hne h2⟩

/-- C4 witness: in the fixture store, the optimistic state carries the
new user message with the busy flag set, and the completed send carries
the appended model reply with the busy flag cleared. -/
theorem send_commits_then_appends_witness :
    (currentConversation (handleSendOptimistic sA "q" none)
        = some ⟨"a", "Conversation 1",
            [⟨Role.user, "hi"⟩, ⟨Role.model, "yo"⟩, ⟨Role.user, "q"⟩], "sys"⟩
      ∧ (handleSendOptimistic sA "q" none).isLoading = true)
    ∧ (currentConversation (handleSend sA "q" none "r")
        = some ⟨"a", "Conversation 1",
            [⟨Role.user, "hi"⟩, ⟨Role.model, "yo"⟩, ⟨Role.user, "q"⟩, ⟨Role.model, "r"⟩],
            "sys"⟩
      ∧ (handleSend sA "q" none "r").isLoading = false) := by
  have h := send_commits_then_appends sA "q" none "r" "a" convA rfl (by decide) rfl
  exact h

/-- C6: editing a model-authored message at index i replaces only that
message text: the message count is unchanged, the message at i keeps the
model role with the new text, and every other position is fully
unchanged, so no truncation occurs. -/
theorem edit_model_changes_only_target (s : AppState) (i : Nat) (t r : String) :
    ∀ cid c m, s.currentConversationId = some cid → cid ≠ "" →
      s.conversations.find? (fun x => x.id == cid) = some c →
      c.messages[i]? = some m → m.role = Role.model →
      messages (appOnSend s (some i) (some Role.model) t r)
        = c.messages.set i ⟨Role.model, t⟩
      ∧ (messages (appOnSend s (some i) (some Role.model) t r)).length
        = c.messages.length
      ∧ (messages (appOnSend s (some i) (some Role.model) t r))[i]?
        = some ⟨Role.model, t⟩
      ∧ ∀ j, j ≠ i →
        (messages (appOnSend s (some i) (some Role.model) t r))[j]? = c.messages[j]? := by
  intro cid c m h1 hne h2 hmi hrole
  have hcur : currentConversation s = some c := currentConversation_eq s cid c h1 h2
  have hmsg : messages s = c.messages := messages_eq s c hcur
  have hset : setMessageText (messages s) i t = c.messages.set i ⟨Role.model, t⟩ := by
    simp [setMessageText, hmsg, hmi, hrole]
  have hupd := currentConversation_updateMessages s cid
    (c.messages.set i ⟨Role.model, t⟩) c h1 h2
  have hmain : messages (appOnSend s (some i) (some Role.model) t r)
      = c.messages.set i ⟨Role.model, t⟩ := by
    simp only [appOnSend, h1, if_neg hne, hset]
    exact messages_eq _ _ hupd
  have hlt : i < c.messages.length := (List.getElem?_eq_some.mp hmi).1
  refine ⟨hmain, ?_, ?_, ?_⟩
  · rw [hmain]
    exact List.length_set ..
  · rw [hmain]
    simp [List.getElem?_set_self', hlt]
  · intro j hj
    rw [hmain]
    simp [List.getElem?_set_ne (fun hh => hj hh.symm)]

/-- C6 witness: editing the model message at index 1 of the fixture
conversation replaces only its text. -/
theorem edit_model_changes_only_target_witness :
    messages (appOnSend sA (some 1) (some Role.model) "new" "r")
      = [⟨Role.user, "hi"⟩, ⟨Role.model, "new"⟩] := by
  have h := edit_model_changes_only_target sA 1 "new" "r" "a" convA
    ⟨Role.model, "yo"⟩ rfl (by decide) rfl rfl rfl
  exact h.1

/-- C7: saving a preset under an existing name overwrites that entry in
place, keeping the list of preset names and its size unchanged; saving
under a new name appends exactly one entry and preserves distinctness of
preset names. -/
theorem preset_save_upsert (s : AppState) (name : String) :
    ∀ c, currentConversation s = some c →
      (∀ i, s.systemInstructionPresets.findIdx? (fun p => p.name == name) = some i →
        (handleAddSystemInstructionPreset s name).systemInstructionPresets
          = s.systemInstructionPresets.set i ⟨name, c.systemInstruction⟩
        ∧ (handleAddSystemInstructionPreset s name).systemInstructionPresets.map
            (fun p => p.name)
          = s.systemInstructionPresets.map (fun p => p.name)
        ∧ (handleAddSystemInstructionPreset s name).systemInstructionPresets.length
          = s.systemInstructionPresets.length)
      ∧ (s.systemInstructionPresets.findIdx? (fun p => p.name == name) = none →
        (handleAddSystemInstructionPreset s name).systemInstructionPresets
          = s.systemInstructionPresets ++ [⟨name, c.systemInstruction⟩]
        ∧ ((s.systemInstructionPresets.map (fun p => p.name)).Nodup →
          ((handleAddSystemInstructionPreset s name).systemInstructionPresets.map
            (fun p => p.name)).Nodup)) := by
  intro c hc
  constructor
  · intro i hi
    have hpre : (handleAddSystemInstructionPreset s name).systemInstructionPresets
        = s.systemInstructionPresets.set i ⟨name, c.systemInstruction⟩ := by
      simp [handleAddSystemInstructionPreset, hc, hi]
    refine ⟨hpre, ?_, ?_⟩
    · rw [hpre]
      obtain ⟨p0, hp0, hp0name⟩ := findIdx?_found _ _ _ hi
      have hp0n : p0.name = name := by simpa using hp0name
      rw [List.map_set]
      have hmapi : (s.systemInstructionPresets.map (fun p => p.name))[i]? = some name := by
        rw [List.getElem?_map, hp0]
        simp [hp0n]
      exact set_eq_self_of_getElem? _ i _ hmapi
    · rw [hpre]
      exact List.length_set ..
  · intro hnone
    have hpre : (handleAddSystemInstructionPreset s name).systemInstructionPresets
        = s.systemInstructionPresets ++ [⟨name, c.systemInstruction⟩] := by
      simp [handleAddSystemInstructionPreset, hc, hnone]
    refine ⟨hpre, ?_⟩
    intro hnd
    rw [hpre, List.map_append]
    have hmem : name ∉ s.systemInstructionPresets.map (fun p => p.name) := by
      intro hmem
      obtain ⟨p0, hp0mem, hp0eq⟩ := List.mem_map.mp hmem
      have hfalse := findIdx?_none _ _ hnone p0 hp0mem
      simp [hp0eq] at hfalse
    simp [List.nodup_append, hnd, hmem]

/-- C7 witness: saving under the existing name p1 overwrites in place
without changing the preset list shape; saving under the new name p3
appends exactly one entry. -/
theorem preset_save_upsert_witness :
    (handleAddSystemInstructionPreset sA "p1").systemInstructionPresets
      = [⟨"p1", "sys"⟩, ⟨"p2", "other"⟩]
    ∧ (handleAddSystemInstructionPreset sA "p3").systemInstructionPresets
      = [⟨"p1", "sys"⟩, ⟨"p2", "other"⟩, ⟨"p3", "sys"⟩] := by
  constructor
  · exact (((preset_save_upsert sA "p1") convA rfl).1 0 rfl).1
  · exact (((preset_save_upsert sA "p3") convA rfl).2 rfl).1

/-- C8: deleting a preset that exists removes it from the preset list;
when its instruction text equals the instruction of the current
conversation, the current instruction is cleared to empty, and when the
text differs the conversations are left untouched. -/
theorem preset_delete_instruction_clearing (s : AppState) (name : String) :
    ∀ cid c p, s.currentConversationId = some cid → cid ≠ "" →
      s.conversations.find? (fun x => x.id == cid) = some c →
      s.systemInstructionPresets.find? (fun q => q.name == name) = some p →
      (handleDeleteSystemInstructionPreset s name).systemInstructionPresets
        = s.systemInstructionPresets.filter (fun q => !(q.name == name))
      ∧ (c.systemInstruction = p.instruction →
          currentConversation (handleDeleteSystemInstructionPreset s name)
            = some { c with systemInstruction := "" })
      ∧ (c.systemInstruction ≠ p.instruction →
          (handleDeleteSystemInstructionPreset s name).conversations = s.conversations
          ∧ currentConversation (handleDeleteSystemInstructionPreset s name) = some c) := by
  intro cid c p h1 hne h2 h4
  have hcur : currentConversation s = some c := currentConversation_eq s cid c h1 h2
  refine ⟨?_, ?_, ?_⟩
  · by_cases hcp : c.systemInstruction = p.instruction
    · simp [handleDeleteSystemInstructionPreset, h4, hcur, hcp,
        handleSystemInstructionChange, h1, if_neg hne, updateConversationSystemInstruction]
    · simp [handleDeleteSystemInstructionPreset, h4, hcur, hcp]
  · intro hcp
    simp only [handleDeleteSystemInstructionPreset, h4, hcur]
    rw [if_pos (by simp [hcp])]
    simp only [handleSystemInstructionChange, h1, if_neg hne,
      updateConversationSystemInstruction, currentConversation]
    exact find?_map_upd s.conversations cid (fun x => { x with systemInstruction := "" })
      (fun x => rfl) c h2
  · intro hcp
    constructor
    · simp [handleDeleteSystemInstructionPreset, h4, hcur, hcp]
    · simp only [handleDeleteSystemInstructionPreset, h4, hcur]
      rw [if_neg (by simp [hcp])]
      simpa [currentConversation, h1] using h2

/-- C8 witness: deleting preset p1, whose text equals the fixture
conversation instruction, removes the preset and clears the instruction. -/
theorem preset_delete_instruction_clearing_witness :
    (handleDeleteSystemInstructionPreset sA "p1").systemInstructionPresets
      = [⟨"p2", "other"⟩]
    ∧ currentConversation (handleDeleteSystemInstructionPreset sA "p1")
      = some ⟨"a", "Conversation 1", [⟨Role.user, "hi"⟩, ⟨Role.model, "yo"⟩], ""⟩ := by
  have h := preset_delete_instruction_clearing sA "p1" "a" convA ⟨"p1", "sys"⟩
    rfl (by decide) rfl rfl
  exact ⟨h.1, h.2.1 rfl⟩

end GeminiTxtOutput
